import Mathlib

/-!
Shallow embedding of `src/porcupine/plugins/irc/backend.py` (the IRC client
core: line framing, message parsing, the event-router loop, and the command
API).  Python strings are modelled as `List Char`; Python's `str.split(sep)`,
`str.split(sep, 1)`, `str.replace(old, new, 1)`, `startswith`, and `in` are
given faithful list-level counterparts.  A Python statement that can raise an
uncaught exception is modelled with `Option`/an explicit outcome constructor
(`none` / `.died` = the exception propagates and kills the thread).
-/

/-- Python strings, modelled character by character. -/
abbrev Str := List Char

/-- Python `s.split(sep)` for a one-character separator `sep`: splits on every
occurrence, keeping empty pieces; the result is never empty
(`"".split(" ") == [""]`). -/
def splitSep (sep : Char) : Str → List Str
  | [] => [[]]
  | c :: rest =>
    if c = sep then [] :: splitSep sep rest
    else
      match splitSep sep rest with
      | [] => [[c]]
      | t :: ts => (c :: t) :: ts

/-- Python `s.split(sep, 1)` for a one-character separator, keeping only the
successful (two-piece) case: `some (before, after)` at the first occurrence of
`sep`, `none` when `sep` does not occur (where Python would return a
one-element list and tuple unpacking would raise `ValueError`). -/
def splitFirst (sep : Char) : Str → Option (Str × Str)
  | [] => none
  | c :: rest =>
    if c = sep then some ([], rest)
    else (splitFirst sep rest).map (fun p => (c :: p.1, p.2))

/-- `IrcEvent` of backend.py (the public events), with each variant carrying
the parameters documented in the source's comments and actually put on
`event_queue` by `_mainloop`.  `sender` fields are `Option Sender` because
`msg.sender` is `None` for prefix-less lines. -/
inductive Sender : Type
  | user (nick user host : Str)
  | server (name : Str)
  deriving DecidableEq, Repr

/-- `_Message = namedtuple("_Message", ["sender", "command", "args"])`. -/
structure Message : Type where
  sender : Option Sender
  command : Str
  args : List Str
  deriving DecidableEq, Repr

/-- The trailing-argument loop at the end of `_split_line`:
`for n, arg in enumerate(args): if arg.startswith(":"): args = args[:n] +
[" ".join(args[n:])[1:]]; break`.  Recursively: the first argument starting
with a colon, together with all later arguments, is rejoined with single
spaces and has its first character dropped, becoming the single last
argument. -/
def processArgs : List Str → List Str
  | [] => []
  | a :: rest =>
    if a.head? = some ':' then [(List.intercalate [' '] (a :: rest)).drop 1]
    else a :: processArgs rest

/-- `IrcCore._split_line`.  `none` models an uncaught `ValueError`:
either the line starts with a colon but holds no space (so
`sender, command, *args = line.split(" ")` cannot unpack), or the prefix
contains `!` but the part after the first `!` contains no `@` (so
`user, host = sender.split("@", 1)` cannot unpack). -/
def splitLine (line : Str) : Option Message :=
  if line.head? = some ':' then
    match splitSep ' ' line with
    | senderTok :: command :: args =>
      let pfx := senderTok.drop 1
      if pfx.contains '!' then
        match splitFirst '!' pfx with
        | some (nick, afterBang) =>
          match splitFirst '@' afterBang with
          | some (user, host) =>
            some ⟨some (.user nick user host), command, processArgs args⟩
          | none => none
        | none => none
      else some ⟨some (.server pfx), command, processArgs args⟩
    | _ => none
  else
    match splitSep ' ' line with
    | command :: args => some ⟨none, command, processArgs args⟩
    | [] => none

example : splitLine ":nick!user@host PRIVMSG #chan :hello world".toList =
    some ⟨some (.user "nick".toList "user".toList "host".toList),
      "PRIVMSG".toList, ["#chan".toList, "hello world".toList]⟩ := by decide

example : splitLine ":irc.example.org 001 me :Welcome".toList =
    some ⟨some (.server "irc.example.org".toList), "001".toList,
      ["me".toList, "Welcome".toList]⟩ := by decide

example : splitLine "PING :server.example".toList =
    some ⟨none, "PING".toList, ["server.example".toList]⟩ := by decide

example : splitLine ":nick!userhost PRIVMSG #chan :hi".toList = none := by decide


/-- `_IrcInternalEvent` together with the payload tuple each variant is
enqueued with on `_internal_queue` (by `_add_messages_to_internal_queue`,
`join_channel`, `part_channel`, `send_privmsg`). -/
inductive InternalEvent : Type
  | gotMessage (msg : Message)
  | shouldJoin (channel : Str)
  | shouldPart (channel : Str) (reason : Option Str)
  | shouldSendPrivmsg (recipient text : Str)
  deriving DecidableEq, Repr

/-- `IrcEvent` with the payload tuple each variant is put on `event_queue`
with. -/
inductive PublicEvent : Type
  | connected
  | selfJoined (channel : Str)
  | selfParted (channel : Str) (reason : Option Str)
  | userJoined (sender : Option Sender) (channel : Str)
  | userParted (sender : Option Sender) (channel : Str) (reason : Option Str)
  | sentPrivmsg (recipient text : Str)
  | recievedPrivmsg (sender : Option Sender) (recipient text : Str)
  deriving DecidableEq, Repr

/-- `IrcCore._send(*parts)`: the bytes written to the socket are the parts
joined with single spaces followed by the CRLF terminator. -/
def sendLine (parts : List Str) : Str :=
  List.intercalate [' '] parts ++ ['\r', '\n']

/-- Python `s.replace(old, new, 1)`: replace the first (leftmost) occurrence
of `old` by `new`, leaving `s` unchanged when `old` does not occur. -/
def replaceFirst (old new : Str) : Str → Str
  | [] => if old = [] then new else []
  | c :: rest =>
    if old.isPrefixOf (c :: rest) then new ++ (c :: rest).drop old.length
    else c :: replaceFirst old new rest

/-- One iteration of the reader loop `_add_messages_to_internal_queue` on a
received line: returns `some (wire writes, internal events enqueued)`, and
`none` when `_split_line` raises (the exception kills the reader thread).
A line starting with `PING` is answered with `_send(line.replace("PING",
"PONG", 1))` and is not parsed or enqueued. -/
def readerStep (line : Str) : Option (List Str × List InternalEvent) :=
  if "PING".toList.isPrefixOf line then
    some ([sendLine [replaceFirst "PING".toList "PONG".toList line]], [])
  else
    match splitLine line with
    | some msg => some ([], [.gotMessage msg])
    | none => none

/-- One iteration of the router loop `IrcCore._mainloop` on one internal
event: `some (wire writes, public events emitted)`, and `none` when the
dispatch raises an uncaught exception and the router thread dies
(`recipient, text = msg.args` with an argument count other than two,
`[channel] = msg.args` with a count other than one, `msg.args[0]` on an
empty list).  A `got_message` whose command is none of `PRIVMSG`, `JOIN`,
`PART` falls through all branches: the message is silently ignored. -/
def routerStep : InternalEvent → Option (List Str × List PublicEvent)
  | .gotMessage msg =>
    if msg.command = "PRIVMSG".toList then
      match msg.args with
      | [recipient, text] => some ([], [.recievedPrivmsg msg.sender recipient text])
      | _ => none
    else if msg.command = "JOIN".toList then
      match msg.args with
      | [channel] => some ([], [.userJoined msg.sender channel])
      | _ => none
    else if msg.command = "PART".toList then
      match msg.args with
      | [] => none
      | channel :: rest => some ([], [.userParted msg.sender channel rest.head?])
    else some ([], [])
  | .shouldJoin channel =>
    some ([sendLine ["JOIN".toList, channel]], [.selfJoined channel])
  | .shouldPart channel reason =>
    match reason with
    | none => some ([sendLine ["PART".toList, channel]], [.selfParted channel none])
    | some r =>
      some ([sendLine ["PART".toList, channel, ':' :: r]], [.selfParted channel (some r)])
  | .shouldSendPrivmsg recipient text =>
    some ([sendLine ["PRIVMSG".toList, recipient, ':' :: text]],
      [.sentPrivmsg recipient text])

/-- The router loop `_mainloop` run over a finite sequence of internal events
pulled in FIFO order from `_internal_queue` (the running flag staying true):
accumulated wire writes, accumulated public events, and whether the loop is
still alive afterwards (`false` = an iteration raised and the thread died,
dropping all later events). -/
def routerRun : List InternalEvent → List Str × List PublicEvent × Bool
  | [] => ([], [], true)
  | e :: rest =>
    match routerStep e with
    | none => ([], [], false)
    | some (w, p) =>
      let (ws, ps, ok) := routerRun rest
      (w ++ ws, p ++ ps, ok)

/-- The per-event translation of the spec's dispatch table (§4.3), written
from the spec's words, to be compared with `routerStep`/`routerRun`: each
table row maps one internal event to its emitted public events (a command
outside `PRIVMSG`/`JOIN`/`PART`, or arguments outside the table's shapes,
emit nothing). -/
def dispatchTableTranslation : InternalEvent → List PublicEvent
  | .gotMessage msg =>
    if msg.command = "PRIVMSG".toList then
      match msg.args with
      | [recipient, text] => [.recievedPrivmsg msg.sender recipient text]
      | _ => []
    else if msg.command = "JOIN".toList then
      match msg.args with
      | [channel] => [.userJoined msg.sender channel]
      | _ => []
    else if msg.command = "PART".toList then
      match msg.args with
      | [channel] => [.userParted msg.sender channel none]
      | [channel, reason] => [.userParted msg.sender channel (some reason)]
      | _ => []
    else []
  | .shouldJoin channel => [.selfJoined channel]
  | .shouldPart channel reason => [.selfParted channel reason]
  | .shouldSendPrivmsg recipient text => [.sentPrivmsg recipient text]

/-- The CRLF line terminator `"\r\n"`. -/
def crlf : Str := ['\r', '\n']

/-- Outcome of the byte-accumulation loop inside `_recv_line`
(`while not data.endswith(b"\r\n"): chunk = self._sock.recv(4096); ...`).
The socket's future is modelled as the finite list of chunks it will yield,
in order; an empty chunk is `recv` returning zero bytes (peer closed).
`ok data rest` = the loop stopped with accumulated `data` ending in CRLF,
chunks `rest` still unread; `closedError rest` = an empty chunk arrived
before CRLF and `RuntimeError("Server closed the connection!")` was raised;
`blocked` = the modelled chunk list ran out, where the real read would block
forever. -/
inductive RecvOutcome : Type
  | ok (data : Str) (rest : List Str)
  | closedError (rest : List Str)
  | blocked
  deriving DecidableEq, Repr

/-- The accumulation loop of `_recv_line`, decoding modelled at the character
level (UTF-8 `decode(errors='replace')` is total, so decoding never
fails and chunks are carried as already-decoded text). -/
def recvData : List Str → Str → RecvOutcome
  | chunks, data =>
    if crlf.isSuffixOf data then .ok data chunks
    else
      match chunks with
      | [] => .blocked
      | chunk :: rest =>
        if chunk = [] then .closedError rest
        else recvData rest (data ++ chunk)

/-- Python `data.split("\r\n")`: split on every occurrence of the two-byte
terminator, scanning left to right, keeping empty pieces (in particular a
trailing empty piece when `data` ends with the terminator). -/
def splitCRLF : Str → List Str
  | [] => [[]]
  | '\r' :: '\n' :: rest => [] :: splitCRLF rest
  | c :: rest =>
    match splitCRLF rest with
    | [] => [[c]]
    | t :: ts => (c :: t) :: ts

/-- The reader-side state touched by `_recv_line`: the `_linebuffer` deque
and the socket's pending chunks. -/
structure RecvState : Type where
  linebuffer : List Str
  chunks : List Str
  deriving DecidableEq, Repr

/-- Result of one `_recv_line()` call: a line plus the successor state, the
connection-closed `RuntimeError`, or blocking forever on `recv`. -/
inductive RecvLineResult : Type
  | line (l : Str) (s : RecvState)
  | closedError (s : RecvState)
  | blocked
  deriving DecidableEq, Repr

/-- `IrcCore._recv_line`: when `_linebuffer` is non-empty, pop its first line
without touching the socket; otherwise accumulate chunks until CRLF, split
the decoded data on CRLF, extend the buffer with all pieces and pop the
first. -/
def recvLine (s : RecvState) : RecvLineResult :=
  match s.linebuffer with
  | l :: rest => .line l ⟨rest, s.chunks⟩
  | [] =>
    match recvData s.chunks [] with
    | .ok data restChunks =>
      match splitCRLF data with
      | l :: ls => .line l ⟨ls, restChunks⟩
      | [] => .blocked
    | .closedError rest => .closedError ⟨[], rest⟩
    | .blocked => .blocked

/-- `recvLine` applied `n` times in a row, collecting the returned lines;
stops early on an error or a blocked read. -/
def drainLines : Nat → RecvState → List Str × RecvState
  | 0, s => ([], s)
  | n + 1, s =>
    match recvLine s with
    | .line l s2 =>
      let (ls, s3) := drainLines n s2
      (l :: ls, s3)
    | _ => ([], s)

/-- The accumulation loop starting from `data` consumes exactly the given
chunks: no intermediate accumulation already ends with CRLF, no chunk is
empty, and the full accumulation ends with CRLF. -/
def consumesAll : List Str → Str → Bool
  | [], data => crlf.isSuffixOf data
  | c :: rest, data => !crlf.isSuffixOf data && !(c = []) && consumesAll rest (data ++ c)

/-- The accumulation loop never un-reads chunks: on success the remaining
chunk list is a suffix-count bound of the input. -/
theorem recvData_length_le (chunks : List Str) (data d : Str) (rest : List Str)
    (h : recvData chunks data = .ok d rest) : rest.length ≤ chunks.length := by
  induction chunks generalizing data with
  | nil =>
    rw [recvData] at h
    by_cases hc : crlf.isSuffixOf data
    · simp only [hc, if_pos] at h
      cases h
      exact le_refl _
    · simp [hc] at h
  | cons c cs ih =>
    rw [recvData] at h
    by_cases hc : crlf.isSuffixOf data
    · simp only [hc, if_pos] at h
      cases h
      exact le_refl _
    · simp only [hc, if_neg, Bool.false_eq_true, not_false_eq_true] at h
      by_cases he : c = []
      · simp [he] at h
      · simp only [he, if_neg] at h
        exact le_trans (ih _ h) (Nat.le_succ _)

/-- Starting from an empty accumulator, a successful read consumes at least
one chunk. -/
theorem recvData_length_lt (chunks : List Str) (d : Str) (rest : List Str)
    (h : recvData chunks [] = .ok d rest) : rest.length < chunks.length := by
  cases chunks with
  | nil =>
    rw [recvData] at h
    simp [crlf, List.isSuffixOf] at h
  | cons c cs =>
    rw [recvData] at h
    have hns : crlf.isSuffixOf ([] : Str) = false := by decide
    simp only [hns, Bool.false_eq_true, if_neg, not_false_eq_true] at h
    by_cases he : c = []
    · simp [he] at h
    · simp only [he, if_neg] at h
      exact Nat.lt_succ_of_le (recvData_length_le _ _ _ _ h)

/-- Each successful `_recv_line` call strictly decreases the measure
(pending chunks, then buffered lines): either it reads the socket and
consumes at least one chunk, or it pops the buffer and leaves the socket
untouched. -/
theorem recvLine_measure (s : RecvState) (l : Str) (s2 : RecvState)
    (h : recvLine s = .line l s2) :
    s2.chunks.length < s.chunks.length ∨
      (s2.chunks = s.chunks ∧ s2.linebuffer.length < s.linebuffer.length) := by
  cases s with
  | mk buf chunks =>
    cases buf with
    | cons b bs =>
      simp only [recvLine] at h
      cases h
      exact Or.inr ⟨rfl, Nat.lt_succ_self _⟩
    | nil =>
      simp only [recvLine] at h
      cases hr : recvData chunks [] with
      | ok data rest =>
        simp only [hr] at h
        cases hs : splitCRLF data with
        | nil => simp only [hs] at h; cases h
        | cons x xs =>
          simp only [hs] at h
          cases h
          exact Or.inl (recvData_length_lt _ _ _ hr)
      | closedError rest => simp only [hr] at h; cases h
      | blocked => simp only [hr] at h; cases h

/-- How a reader-side loop ends in the model: `died` = an uncaught exception
terminated the thread; `blocked` = the modelled socket input ran out and the
next `recv` would block forever. -/
inductive ReaderOutcome : Type
  | died
  | blocked
  deriving DecidableEq, Repr

/-- The reader loop `_add_messages_to_internal_queue` (with the running flag
staying true), run over the modelled socket input: accumulated wire writes
(PONG replies), internal events enqueued, and how the loop ended. -/
def readerLoop (s : RecvState) : List Str × List InternalEvent × ReaderOutcome :=
  match h : recvLine s with
  | .line l s2 =>
    if "PING".toList.isPrefixOf l then
      let (w, es, o) := readerLoop s2
      (sendLine [replaceFirst "PING".toList "PONG".toList l] :: w, es, o)
    else
      match splitLine l with
      | none => ([], [], .died)
      | some m =>
        let (w, es, o) := readerLoop s2
        (w, .gotMessage m :: es, o)
  | .closedError _ => ([], [], .died)
  | .blocked => ([], [], .blocked)
termination_by (s.chunks.length, s.linebuffer.length)
decreasing_by
  all_goals
    rcases recvLine_measure s l s2 h with h1 | ⟨h1, h2⟩
    · exact Prod.Lex.left _ _ h1
    · rw [h1]; exact Prod.Lex.right _ h2

/-- How the handshake loop inside `connect`'s worker ends: `success` = a
line with command `001` was seen (remaining reader state carried along),
after which `Connected` is emitted and the two background loops start;
`died` = an uncaught exception killed the worker thread silently;
`blocked` = the modelled input ran out. -/
inductive HandshakeOutcome : Type
  | success (s : RecvState)
  | died
  | blocked
  deriving DecidableEq, Repr

/-- The synchronous read loop inside `connect`'s `worker`: reads lines,
answers `PING` in place, parses everything else, and stops at the first
message whose command is `001`.  Returns the wire writes (PONG replies),
the public events emitted (`[.connected]` exactly on success, nothing
otherwise), and the outcome. -/
def handshakeLoop (s : RecvState) : List Str × List PublicEvent × HandshakeOutcome :=
  match h : recvLine s with
  | .line l s2 =>
    if "PING".toList.isPrefixOf l then
      let (w, es, o) := handshakeLoop s2
      (sendLine [replaceFirst "PING".toList "PONG".toList l] :: w, es, o)
    else
      match splitLine l with
      | none => ([], [], .died)
      | some m =>
        if m.command = "001".toList then ([], [.connected], .success s2)
        else handshakeLoop s2
  | .closedError _ => ([], [], .died)
  | .blocked => ([], [], .blocked)
termination_by (s.chunks.length, s.linebuffer.length)
decreasing_by
  all_goals
    rcases recvLine_measure s l s2 h with h1 | ⟨h1, h2⟩
    · exact Prod.Lex.left _ _ h1
    · rw [h1]; exact Prod.Lex.right _ h2

/-- `connect`'s `worker` thread: connects the socket, writes the `NICK` and
`USER` registration lines, then runs the handshake loop. -/
def connectWorker (nick : Str) (s : RecvState) :
    List Str × List PublicEvent × HandshakeOutcome :=
  let (w, es, o) := handshakeLoop s
  (sendLine ["NICK".toList, nick] ::
    sendLine ["USER".toList, nick, "0".toList, "*".toList, ':' :: nick] :: w, es, o)

/-- What `IrcCore.connect` itself does on the caller's thread: it starts the
worker thread and returns at once.  Its caller-visible result carries no
information about the handshake (the worker's success or failure happens
later, on the spawned thread). -/
def connect (_futureChunks : List Str) : Unit := ()

/-- The mutable fields of an `IrcCore` instance (`__init__`), together with
the observable effect channels: `wire` is everything `_send` has written,
`sockClosed` records whether anyone called `close()` on the socket (nobody
in this code does). -/
structure CoreState : Type where
  running : Bool
  nick : Str
  linebuffer : List Str
  internalQueue : List InternalEvent
  eventQueue : List PublicEvent
  wire : List Str
  sockClosed : Bool
  deriving DecidableEq, Repr

/-- `IrcCore.join_channel`: enqueue a `should_join` on `_internal_queue` and
return. -/
def joinChannel (channel : Str) (s : CoreState) : CoreState :=
  { s with internalQueue := s.internalQueue ++ [.shouldJoin channel] }

/-- `IrcCore.part_channel` (default `reason=None`): enqueue a `should_part`
and return. -/
def partChannel (channel : Str) (reason : Option Str) (s : CoreState) : CoreState :=
  { s with internalQueue := s.internalQueue ++ [.shouldPart channel reason] }

/-- `IrcCore.send_privmsg`: enqueue a `should_send_privmsg` and return. -/
def sendPrivmsg (recipient text : Str) (s : CoreState) : CoreState :=
  { s with internalQueue := s.internalQueue ++ [.shouldSendPrivmsg recipient text] }

/-- `IrcCore.quit`: `self._running = False` and nothing else. -/
def quit (s : CoreState) : CoreState :=
  { s with running := false }

/-- The internal events whose shape matches a row of the spec's dispatch
table: a `got_message` whose command is `PRIVMSG`, `JOIN` or `PART` carries
the argument count of its row (`[recipient, text]`, `[channel]`,
`[channel]` or `[channel, reason]`); other commands and all command events
match unconditionally. -/
def wellFormedEvent : InternalEvent → Bool
  | .gotMessage msg =>
    if msg.command = "PRIVMSG".toList then msg.args.length = 2
    else if msg.command = "JOIN".toList then msg.args.length = 1
    else if msg.command = "PART".toList then
      msg.args.length = 1 || msg.args.length = 2
    else true
  | _ => true


/-- `splitSep` never returns the empty list (Python `split` always yields at
least one piece). -/
theorem splitSep_ne_nil (sep : Char) (l : Str) : splitSep sep l ≠ [] := by
  cases l with
  | nil => simp [splitSep]
  | cons c rest =>
    rw [splitSep]
    by_cases hc : c = sep
    · simp [hc]
    · simp only [hc, if_neg, not_false_eq_true]
      cases splitSep sep rest with
      | nil => simp
      | cons t ts => simp

/-- A string containing the separator splits into at least two pieces. -/
theorem splitSep_two_of_contains (sep : Char) (l : Str)
    (h : l.contains sep = true) :
    ∃ t1 t2 ts, splitSep sep l = t1 :: t2 :: ts := by
  induction l with
  | nil => simp [List.contains] at h
  | cons c rest ih =>
    rw [splitSep]
    by_cases hc : c = sep
    · refine ⟨[], (splitSep sep rest).headI, (splitSep sep rest).tail, ?_⟩
      simp only [hc, if_pos]
      cases hr : splitSep sep rest with
      | nil => exact absurd hr (splitSep_ne_nil sep rest)
      | cons t ts => simp
    · have hrest : rest.contains sep = true := by
        simp only [List.contains_cons] at h
        rcases Bool.or_eq_true_iff.mp h with h1 | h1
        · exact absurd (eq_of_beq h1).symm hc
        · exact h1
      obtain ⟨t1, t2, ts, ht⟩ := ih hrest
      refine ⟨c :: t1, t2, ts, ?_⟩
      simp [hc, ht]

/-- `splitFirst` on a string of the shape `a ++ sep :: b` with no earlier
occurrence of `sep` splits exactly there (Python `split(sep, 1)`). -/
theorem splitFirst_append (sep : Char) (a b : Str)
    (ha : a.contains sep = false) : splitFirst sep (a ++ sep :: b) = some (a, b) := by
  induction a with
  | nil => simp [splitFirst]
  | cons c rest ih =>
    simp only [List.contains_cons, Bool.or_eq_false_iff] at ha
    have hc : ¬ c = sep := fun h => by simp [h] at ha
    rw [List.cons_append, splitFirst]
    simp [hc, ih ha.2]

/-- A string containing `sep` decomposes at the first occurrence. -/
theorem splitFirst_of_contains (sep : Char) (l : Str)
    (h : l.contains sep = true) :
    ∃ a b, splitFirst sep l = some (a, b) ∧ l = a ++ sep :: b ∧
      a.contains sep = false := by
  induction l with
  | nil => simp [List.contains] at h
  | cons c rest ih =>
    by_cases hc : c = sep
    · exact ⟨[], rest, by simp [splitFirst, hc], by simp [hc], by simp⟩
    · have hrest : rest.contains sep = true := by
        simp only [List.contains_cons] at h
        rcases Bool.or_eq_true_iff.mp h with h1 | h1
        · exact absurd (eq_of_beq h1).symm hc
        · exact h1
      obtain ⟨a, b, h1, h2, h3⟩ := ih hrest
      refine ⟨c :: a, b, ?_, by simp [h2], ?_⟩
      · rw [splitFirst]; simp [hc, h1]
      · simp only [List.contains_cons, Bool.or_eq_false_iff]
        refine ⟨beq_eq_false_iff_ne.mpr (fun h => hc h.symm), h3⟩

/-- `splitFirst` returns `none` exactly on Python's `ValueError` case: the
separator does not occur. -/
theorem splitFirst_none_of_not_contains (sep : Char) (l : Str)
    (h : l.contains sep = false) : splitFirst sep l = none := by
  induction l with
  | nil => rfl
  | cons c rest ih =>
    simp only [List.contains_cons, Bool.or_eq_false_iff] at h
    have hc : ¬ c = sep := fun hh => by simp [hh] at h
    rw [splitFirst]
    simp [hc, ih h.2]

/-- The trailing-argument rule of `_split_line`: if no argument before `t`
starts with a colon and `t` does, all arguments from `t` on are rejoined
with single spaces, the leading colon is dropped, and the result is the
single final argument. -/
theorem processArgs_trailing (pre : List Str) (t : Str) (post : List Str)
    (hpre : ∀ p ∈ pre, p.head? ≠ some ':') (ht : t.head? = some ':') :
    processArgs (pre ++ t :: post) =
      pre ++ [(List.intercalate [' '] (t :: post)).drop 1] := by
  induction pre with
  | nil => simp [processArgs, ht]
  | cons a rest ih =>
    have ha : a.head? ≠ some ':' := hpre a (List.mem_cons_self a rest)
    rw [List.cons_append, processArgs]
    simp only [ha, if_neg, not_false_eq_true]
    rw [ih (fun p hp => hpre p (List.mem_cons_of_mem a hp))]
    simp

/-- When no argument starts with a colon, the arguments are left unchanged
(only single-word arguments). -/
theorem processArgs_id (args : List Str)
    (h : ∀ p ∈ args, p.head? ≠ some ':') : processArgs args = args := by
  induction args with
  | nil => rfl
  | cons a rest ih =>
    have ha : a.head? ≠ some ':' := h a (List.mem_cons_self a rest)
    rw [processArgs]
    simp only [ha, if_neg, not_false_eq_true]
    rw [ih (fun p hp => h p (List.mem_cons_of_mem a hp))]

/-- `splitFirst` succeeding decomposes its input at the separator. -/
theorem splitFirst_some_decomp (sep : Char) (l a b : Str)
    (h : splitFirst sep l = some (a, b)) : l = a ++ sep :: b := by
  induction l generalizing a b with
  | nil => simp [splitFirst] at h
  | cons c rest ih =>
    rw [splitFirst] at h
    by_cases hc : c = sep
    · rw [if_pos hc] at h
      cases h
      simp [hc]
    · rw [if_neg hc] at h
      cases hf : splitFirst sep rest with
      | none => rw [hf] at h; simp at h
      | some p =>
        obtain ⟨a', b'⟩ := p
        rw [hf] at h
        simp only [Option.map_some'] at h
        cases h
        exact congrArg (List.cons c) (ih a' _ hf)

/-- Rejoining a non-empty token list with single spaces starts with the
first token. -/
theorem intercalate_cons_exists (t : Str) (post : List Str) :
    ∃ r, List.intercalate [' '] (t :: post) = t ++ r := by
  cases post with
  | nil => exact ⟨[], by simp [List.intercalate]⟩
  | cons p ps =>
    refine ⟨[' '] ++ List.intercalate [' '] (p :: ps), ?_⟩
    simp [List.intercalate, List.intersperse]

/-- C2: for the line `:nick!user@host PRIVMSG #chan :hello world` the parser
returns sender `User(nick, user, host)`, command `PRIVMSG` and args
`["#chan", "hello world"]`; in general the first tokenized argument starting
with `:` begins the trailing argument, which equals that token and all
following tokens rejoined with single spaces with the leading `:` (the first
character of the rejoined string) stripped, and becomes the single final
argument, all earlier tokens staying single-word arguments. -/
theorem C2_parser_trailing_argument :
    splitLine ":nick!user@host PRIVMSG #chan :hello world".toList =
      some ⟨some (.user "nick".toList "user".toList "host".toList),
        "PRIVMSG".toList, ["#chan".toList, "hello world".toList]⟩ ∧
    ∀ pre t post, (∀ p ∈ pre, p.head? ≠ some ':') → t.head? = some ':' →
      processArgs (pre ++ t :: post) =
        pre ++ [(List.intercalate [' '] (t :: post)).drop 1] ∧
      (List.intercalate [' '] (t :: post)).head? = some ':' := by
  refine ⟨by decide, fun pre t post hpre ht =>
    ⟨processArgs_trailing pre t post hpre ht, ?_⟩⟩
  obtain ⟨r, hr⟩ := intercalate_cons_exists t post
  rw [hr]
  cases t with
  | nil => simp at ht
  | cons c t' => simpa using ht

/-- Witness for C2: the general trailing-argument rule applied to the
argument tokens of `:server.example 353 mynick = #chan :alice bob carol`. -/
theorem C2_parser_trailing_argument_witness :
    processArgs ["mynick".toList, "=".toList, "#chan".toList, ":alice".toList,
        "bob".toList, "carol".toList] =
      ["mynick".toList, "=".toList, "#chan".toList, "alice bob carol".toList] ∧
    (List.intercalate [' ']
        [":alice".toList, "bob".toList, "carol".toList]).head? = some ':' := by
  have h := (C2_parser_trailing_argument.2
    ["mynick".toList, "=".toList, "#chan".toList]
    ":alice".toList ["bob".toList, "carol".toList]
    (by decide) (by decide))
  refine ⟨?_, h.2⟩
  have h1 := h.1
  simp only [List.cons_append, List.nil_append] at h1
  rw [h1]
  decide

/-- A line not starting with a colon parses with no sender: the first
space-token is the command and the rest are the (trailing-processed)
arguments. -/
theorem splitLine_no_sender (line : Str) (h : line.head? ≠ some ':') :
    splitLine line =
      some ⟨none, (splitSep ' ' line).headI, processArgs (splitSep ' ' line).tail⟩ := by
  simp only [splitLine, if_neg h]
  cases hs : splitSep ' ' line with
  | nil => exact absurd hs (splitSep_ne_nil ' ' line)
  | cons c cs => simp [hs]

/-- A prefixed line whose prefix (first token minus the colon) holds no `!`
parses with a `Server` sender. -/
theorem splitLine_server (line tok cmd : Str) (args : List Str)
    (h : line.head? = some ':') (hs : splitSep ' ' line = tok :: cmd :: args)
    (hb : (tok.drop 1).contains '!' = false) :
    splitLine line = some ⟨some (.server (tok.drop 1)), cmd, processArgs args⟩ := by
  simp only [splitLine, if_pos h, hs, hb, Bool.false_eq_true, if_neg,
    not_false_eq_true]

/-- A prefixed line whose prefix decomposes as `nick!user@host` (no `!` in
the nick part, no `@` in the user part) parses with a `User` sender. -/
theorem splitLine_user (line tok cmd : Str) (args : List Str) (nick u hst : Str)
    (h : line.head? = some ':') (hs : splitSep ' ' line = tok :: cmd :: args)
    (hd : tok.drop 1 = nick ++ '!' :: (u ++ '@' :: hst))
    (hn : nick.contains '!' = false) (hu : u.contains '@' = false) :
    splitLine line = some ⟨some (.user nick u hst), cmd, processArgs args⟩ := by
  have hcontains : (tok.drop 1).contains '!' = true := by
    rw [hd]; simp
  have hf1 : splitFirst '!' (tok.drop 1) = some (nick, u ++ '@' :: hst) := by
    rw [hd]; exact splitFirst_append '!' nick (u ++ '@' :: hst) hn
  have hf2 : splitFirst '@' (u ++ '@' :: hst) = some (u, hst) :=
    splitFirst_append '@' u hst hu
  simp only [splitLine, if_pos h, hs, hcontains, if_pos, hf1, hf2]

/-- C7: on a line starting with `:`, the prefix is the first space-token
with the leading colon stripped; a prefix containing `!` decomposes as
`nick!user@host` into a `User` sender, any other prefix becomes a `Server`
sender; a line not starting with `:` has no sender and its first
space-token is the command. -/
theorem C7_sender_parsing :
    (∀ line : Str, line.head? ≠ some ':' →
      splitLine line =
        some ⟨none, (splitSep ' ' line).headI,
          processArgs (splitSep ' ' line).tail⟩) ∧
    (∀ (line tok cmd : Str) (args : List Str),
      line.head? = some ':' → splitSep ' ' line = tok :: cmd :: args →
      (tok.drop 1).contains '!' = false →
      splitLine line =
        some ⟨some (.server (tok.drop 1)), cmd, processArgs args⟩) ∧
    (∀ (line tok cmd : Str) (args : List Str) (nick u hst : Str),
      line.head? = some ':' → splitSep ' ' line = tok :: cmd :: args →
      tok.drop 1 = nick ++ '!' :: (u ++ '@' :: hst) →
      nick.contains '!' = false → u.contains '@' = false →
      splitLine line =
        some ⟨some (.user nick u hst), cmd, processArgs args⟩) :=
  ⟨splitLine_no_sender, splitLine_server, splitLine_user⟩

/-- Witness for C7: the server case on `:irc.example.org 376 me`, the user
case on `:nick!user@host JOIN #chan`, and the senderless case on
`QUIT :bye`. -/
theorem C7_sender_parsing_witness :
    splitLine ":irc.example.org 376 me".toList =
      some ⟨some (.server "irc.example.org".toList), "376".toList,
        ["me".toList]⟩ ∧
    splitLine ":nick!user@host JOIN #chan".toList =
      some ⟨some (.user "nick".toList "user".toList "host".toList),
        "JOIN".toList, ["#chan".toList]⟩ ∧
    splitLine "QUIT :bye".toList = some ⟨none, "QUIT".toList, ["bye".toList]⟩ := by
  refine ⟨?_, ?_, ?_⟩
  · have h := C7_sender_parsing.2.1 ":irc.example.org 376 me".toList
      ":irc.example.org".toList "376".toList ["me".toList]
      (by decide) (by decide) (by decide)
    rw [h]; decide
  · have h := C7_sender_parsing.2.2 ":nick!user@host JOIN #chan".toList
      ":nick!user@host".toList "JOIN".toList ["#chan".toList]
      "nick".toList "user".toList "host".toList
      (by decide) (by decide) (by decide) (by decide) (by decide)
    rw [h]; decide
  · have h := C7_sender_parsing.1 "QUIT :bye".toList (by decide)
    rw [h]; decide

/-- C10: the parser is not total on prefixed lines: when the prefix (first
space-token minus the leading colon) contains `!` but the part after the
first `!` contains no `@`, `_split_line` raises (`user, host =
sender.split("@", 1)` cannot unpack) and no message is returned; and it is
total on prefixed lines (lines starting with `:` that contain a space, so
that the prefix is delimited) under the precondition that whenever the
prefix contains `!`, the part after the first `!` contains `@`. -/
theorem C10_parser_totality :
    (∀ (line nick afterBang : Str), line.head? = some ':' →
      splitFirst '!' (((splitSep ' ' line).headI).drop 1) = some (nick, afterBang) →
      afterBang.contains '@' = false →
      splitLine line = none) ∧
    (∀ line : Str, line.head? = some ':' → line.contains ' ' = true →
      (∀ nick afterBang : Str,
        splitFirst '!' (((splitSep ' ' line).headI).drop 1) =
          some (nick, afterBang) → afterBang.contains '@' = true) →
      ∃ msg, splitLine line = some msg) := by
  constructor
  · intro line nick afterBang h hf hno
    cases hs : splitSep ' ' line with
    | nil => exact absurd hs (splitSep_ne_nil ' ' line)
    | cons tok rest =>
      rw [hs] at hf
      simp only [List.headI] at hf
      have hcontains : (tok.drop 1).contains '!' = true := by
        rw [splitFirst_some_decomp '!' (tok.drop 1) nick afterBang hf]
        simp
      cases rest with
      | nil => simp only [splitLine, if_pos h, hs]
      | cons cmd args =>
        simp only [splitLine, if_pos h, hs, hcontains, if_pos, hf,
          splitFirst_none_of_not_contains '@' afterBang hno]
  · intro line h hsp hpre
    obtain ⟨t1, t2, ts, hs⟩ := splitSep_two_of_contains ' ' line hsp
    by_cases hb : (t1.drop 1).contains '!' = true
    · obtain ⟨a, b, hf, hdec, hane⟩ := splitFirst_of_contains '!' (t1.drop 1) hb
      have hat : b.contains '@' = true := by
        apply hpre a b
        rw [hs]
        simpa using hf
      obtain ⟨u, hst, hf2, hdec2, hune⟩ := splitFirst_of_contains '@' b hat
      refine ⟨⟨some (.user a u hst), t2, processArgs ts⟩, ?_⟩
      apply splitLine_user line t1 t2 ts a u hst h hs
      · rw [hdec, hdec2]
      · exact hane
      · exact hune
    · refine ⟨⟨some (.server (t1.drop 1)), t2, processArgs ts⟩, ?_⟩
      exact splitLine_server line t1 t2 ts h hs (Bool.not_eq_true _ ▸ hb)

/-- Witness for C10: the prefix `nick!userhost` (no `@` after the `!`)
makes the parser raise on `:nick!userhost PRIVMSG #chan :hi`, and the
precondition holding on `:a!b@c X y` makes it succeed. -/
theorem C10_parser_totality_witness :
    splitLine ":nick!userhost PRIVMSG #chan :hi".toList = none ∧
    ∃ msg, splitLine ":a!b@c X y".toList = some msg := by
  constructor
  · exact C10_parser_totality.1 ":nick!userhost PRIVMSG #chan :hi".toList
      "nick".toList "userhost".toList (by decide) (by decide) (by decide)
  · refine C10_parser_totality.2 ":a!b@c X y".toList (by decide) (by decide) ?_
    intro nick afterBang hf
    have he : (some ("a".toList, "b@c".toList) : Option (Str × Str)) =
        some (nick, afterBang) := by
      rw [← hf]; decide
    cases he
    decide

/-- C9: `quit()` only sets the running flag to false: it does not close the
socket, writes nothing (no `QUIT` line) to the wire, and leaves the nick,
the line buffer, both queues and the socket state unchanged. -/
theorem C9_quit_only_clears_running (s : CoreState) :
    (quit s).running = false ∧
    (quit s).nick = s.nick ∧
    (quit s).linebuffer = s.linebuffer ∧
    (quit s).internalQueue = s.internalQueue ∧
    (quit s).eventQueue = s.eventQueue ∧
    (quit s).wire = s.wire ∧
    (quit s).sockClosed = s.sockClosed :=
  ⟨rfl, rfl, rfl, rfl, rfl, rfl, rfl⟩

/-- `replace(old, new, 1)` on a string that starts with `old` substitutes at
position zero and keeps the remainder verbatim. -/
theorem replaceFirst_at_start (old new s : Str) (h : old.isPrefixOf s = true) :
    replaceFirst old new s = new ++ s.drop old.length := by
  cases s with
  | nil =>
    cases old with
    | nil => simp [replaceFirst]
    | cons c cs => simp [List.isPrefixOf] at h
  | cons c rest =>
    rw [replaceFirst, if_pos h]

/-- C6: a received line beginning with `PING` is answered on the wire with
exactly that line with its first occurrence of `PING` replaced by `PONG`
(the rest verbatim, i.e. `PONG` followed by everything after the initial
`PING`) plus the CRLF terminator, and the line is neither parsed nor
enqueued as an internal event; in particular `PING :server.example`
produces exactly `PONG :server.example` on the wire. -/
theorem C6_ping_replied_not_forwarded :
    (∀ line : Str, "PING".toList.isPrefixOf line = true →
      readerStep line =
        some ([sendLine [replaceFirst "PING".toList "PONG".toList line]], []) ∧
      replaceFirst "PING".toList "PONG".toList line =
        "PONG".toList ++ line.drop 4) ∧
    readerStep "PING :server.example".toList =
      some (["PONG :server.example\r\n".toList], []) := by
  constructor
  · intro line h
    refine ⟨?_, replaceFirst_at_start _ _ _ h⟩
    simp only [readerStep]
    rw [if_pos h]
  · decide

/-- Witness for C6: the general PING statement applied to `PING abc`. -/
theorem C6_ping_replied_not_forwarded_witness :
    readerStep "PING abc".toList =
      some ([sendLine [replaceFirst "PING".toList "PONG".toList
        "PING abc".toList]], []) ∧
    replaceFirst "PING".toList "PONG".toList "PING abc".toList =
      "PONG".toList ++ "PING abc".toList.drop 4 :=
  C6_ping_replied_not_forwarded.1 "PING abc".toList (by decide)

/-- Each internal event matching a dispatch-table row is processed without
raising, and the public events it emits are exactly the table row's. -/
theorem routerStep_dispatch (e : InternalEvent) (h : wellFormedEvent e = true) :
    ∃ w, routerStep e = some (w, dispatchTableTranslation e) := by
  cases e with
  | gotMessage msg =>
    obtain ⟨sen, cmd, args⟩ := msg
    by_cases h1 : cmd = "PRIVMSG".toList
    · simp only [wellFormedEvent, h1, if_pos] at h
      have hl : args.length = 2 := of_decide_eq_true h
      cases args with
      | nil => simp at hl
      | cons a rest =>
        cases rest with
        | nil => simp at hl
        | cons b rest2 =>
          cases rest2 with
          | nil =>
            refine ⟨[], ?_⟩
            simp [routerStep, dispatchTableTranslation, h1]
          | cons x xs => simp at hl
    · by_cases h2 : cmd = "JOIN".toList
      · have hne1 : (cmd = "PRIVMSG".toList) = False := eq_false h1
        simp only [wellFormedEvent, hne1, if_false, h2, if_pos] at h
        have hl : args.length = 1 := of_decide_eq_true h
        cases args with
        | nil => simp at hl
        | cons a rest =>
          cases rest with
          | nil =>
            refine ⟨[], ?_⟩
            simp [routerStep, dispatchTableTranslation, h1, h2]
          | cons b rest2 => simp at hl
      · by_cases h3 : cmd = "PART".toList
        · have hne1 : (cmd = "PRIVMSG".toList) = False := eq_false h1
          have hne2 : (cmd = "JOIN".toList) = False := eq_false h2
          simp only [wellFormedEvent, hne1, hne2, if_false, h3, if_pos] at h
          rcases Bool.or_eq_true_iff.mp h with h4 | h4
          · have hl : args.length = 1 := of_decide_eq_true h4
            cases args with
            | nil => simp at hl
            | cons a rest =>
              cases rest with
              | nil =>
                refine ⟨[], ?_⟩
                simp [routerStep, dispatchTableTranslation, h1, h2, h3]
              | cons b rest2 => simp at hl
          · have hl : args.length = 2 := of_decide_eq_true h4
            cases args with
            | nil => simp at hl
            | cons a rest =>
              cases rest with
              | nil => simp at hl
              | cons b rest2 =>
                cases rest2 with
                | nil =>
                  refine ⟨[], ?_⟩
                  simp [routerStep, dispatchTableTranslation, h1, h2, h3]
                | cons x xs => simp at hl
        · refine ⟨[], ?_⟩
          simp only [routerStep, dispatchTableTranslation, if_neg h1, if_neg h2,
            if_neg h3]
  | shouldJoin channel => exact ⟨[sendLine ["JOIN".toList, channel]], rfl⟩
  | shouldPart channel reason =>
    cases reason with
    | none => exact ⟨[sendLine ["PART".toList, channel]], rfl⟩
    | some r => exact ⟨[sendLine ["PART".toList, channel, ':' :: r]], rfl⟩
  | shouldSendPrivmsg recipient text =>
    exact ⟨[sendLine ["PRIVMSG".toList, recipient, ':' :: text]], rfl⟩

/-- C1: running the router loop over any finite FIFO sequence of internal
events whose shapes match the dispatch table (`GotMessage` with a parsed
`PRIVMSG`/`JOIN`/`PART` carrying its row's arguments, `ShouldJoin`,
`ShouldPart`, `ShouldSendPrivmsg`), the public queue receives exactly the
concatenation of the per-event translations of the dispatch table, in
enqueue order — nothing reordered, dropped or duplicated — and the loop
never dies. -/
theorem C1_router_fifo_translation (evts : List InternalEvent)
    (h : ∀ e ∈ evts, wellFormedEvent e = true) :
    (routerRun evts).2.1 = evts.flatMap dispatchTableTranslation ∧
    (routerRun evts).2.2 = true := by
  induction evts with
  | nil => exact ⟨rfl, rfl⟩
  | cons e rest ih =>
    obtain ⟨w, hw⟩ := routerStep_dispatch e (h e (List.mem_cons_self e rest))
    obtain ⟨ih1, ih2⟩ := ih (fun x hx => h x (List.mem_cons_of_mem e hx))
    rw [routerRun]
    simp only [hw]
    cases hrr : routerRun rest with
    | mk ws rest2 =>
      rw [hrr] at ih1 ih2
      obtain ⟨ps, ok⟩ := rest2
      constructor
      · simp only [List.flatMap_cons]
        exact congrArg (dispatchTableTranslation e ++ ·) ih1
      · exact ih2

/-- Witness for C1: a concrete interleaving of an inbound `PRIVMSG`, an
outbound join, an inbound `PART` with no reason, and an outbound message
translates, in order, to exactly the four table rows' events. -/
theorem C1_router_fifo_translation_witness :
    (routerRun
      [.gotMessage ⟨some (.user "a".toList "b".toList "c".toList),
         "PRIVMSG".toList, ["#x".toList, "hi".toList]⟩,
       .shouldJoin "#y".toList,
       .gotMessage ⟨some (.server "s".toList), "PART".toList, ["#x".toList]⟩,
       .shouldSendPrivmsg "#y".toList "yo".toList]).2.1 =
      [.recievedPrivmsg (some (.user "a".toList "b".toList "c".toList))
         "#x".toList "hi".toList,
       .selfJoined "#y".toList,
       PublicEvent.userParted (some (.server "s".toList)) "#x".toList none,
       .sentPrivmsg "#y".toList "yo".toList] ∧
    (routerRun
      [.gotMessage ⟨some (.user "a".toList "b".toList "c".toList),
         "PRIVMSG".toList, ["#x".toList, "hi".toList]⟩,
       .shouldJoin "#y".toList,
       .gotMessage ⟨some (.server "s".toList), "PART".toList, ["#x".toList]⟩,
       .shouldSendPrivmsg "#y".toList "yo".toList]).2.2 = true := by
  have h := C1_router_fifo_translation
    [.gotMessage ⟨some (.user "a".toList "b".toList "c".toList),
       "PRIVMSG".toList, ["#x".toList, "hi".toList]⟩,
     .shouldJoin "#y".toList,
     .gotMessage ⟨some (.server "s".toList), "PART".toList, ["#x".toList]⟩,
     .shouldSendPrivmsg "#y".toList "yo".toList] (by decide)
  refine ⟨?_, h.2⟩
  rw [h.1]
  decide

/-- C3: contrary to the claim, short argument lists are not tolerated for
all commands: a `PART` with one argument is handled (missing reason becomes
absent), but a `PART` with zero arguments (`msg.args[0]` raises
`IndexError`), a `JOIN` with zero arguments (`[channel] = msg.args` raises
`ValueError`) and a `PRIVMSG` with fewer than two arguments
(`recipient, text = msg.args` raises `ValueError`) each kill the router
loop, which then stops consuming: the enqueued `ShouldJoin` following the
empty `PART` is never processed and its `SelfJoined` is never emitted. -/
theorem C3_router_short_args_crash :
    routerRun [.gotMessage ⟨none, "PART".toList, []⟩,
      .shouldJoin "#test".toList] = ([], [], false) ∧
    routerStep (.gotMessage ⟨none, "PART".toList, ["#chan".toList]⟩) =
      some ([], [.userParted none "#chan".toList none]) ∧
    routerStep (.gotMessage ⟨none, "JOIN".toList, []⟩) = none ∧
    routerStep (.gotMessage ⟨none, "PRIVMSG".toList, []⟩) = none ∧
    routerStep (.gotMessage ⟨none, "PRIVMSG".toList, ["#chan".toList]⟩) = none := by
  refine ⟨?_, by decide, by decide, by decide, by decide⟩
  decide

/-- Python `split` on the CRLF terminator never yields an empty list of
pieces. -/
theorem splitCRLF_ne_nil (s : Str) : splitCRLF s ≠ [] := by
  induction s using splitCRLF.induct with
  | case1 => simp [splitCRLF.eq_1]
  | case2 rest ih => simp [splitCRLF.eq_2]
  | case3 c rest hm hnil ih => exact absurd hnil ih
  | case4 c rest hm t ts hts ih =>
    rw [splitCRLF.eq_3 c rest hm, hts]
    simp

/-- Appending one CRLF terminator appends exactly one empty piece to the
split: data ending with the terminator always splits with a final empty
string (Python `"a\r\n".split("\r\n") == ["a", ""]`). -/
theorem splitCRLF_append_crlf (s : Str) :
    splitCRLF (s ++ crlf) = splitCRLF s ++ [[]] := by
  induction s using splitCRLF.induct with
  | case1 => decide
  | case2 rest ih =>
    rw [List.cons_append, List.cons_append, splitCRLF.eq_2, ih, splitCRLF.eq_2,
      List.cons_append]
  | case3 c rest hm hnil ih => exact absurd hnil (splitCRLF_ne_nil rest)
  | case4 c rest hm t ts hts ih =>
    have hm' : ∀ (r1 : Str), c = '\r' → rest ++ crlf = '\n' :: r1 → False := by
      intro r1 hc hr
      cases rest with
      | nil => simp [crlf] at hr
      | cons x xs =>
        rw [List.cons_append] at hr
        injection hr with hx _
        exact hm xs hc (by rw [hx])
    rw [List.cons_append, splitCRLF.eq_3 c (rest ++ crlf) hm', ih, hts,
      splitCRLF.eq_3 c rest hm, hts]
    simp

/-- When the accumulation loop consumes exactly the supplied chunks, it
returns their concatenation with no chunk left unread. -/
theorem recvData_consumesAll (chunks : List Str) (data : Str)
    (h : consumesAll chunks data = true) :
    recvData chunks data = .ok (data ++ chunks.flatten) [] := by
  induction chunks generalizing data with
  | nil =>
    rw [consumesAll] at h
    rw [recvData, if_pos h]
    simp
  | cons c cs ih =>
    rw [consumesAll] at h
    simp only [Bool.and_eq_true, Bool.not_eq_true'] at h
    obtain ⟨⟨h1, h2⟩, h3⟩ := h
    rw [recvData, if_neg (by simp [h1])]
    rw [if_neg (of_decide_eq_false h2)]
    rw [ih (data ++ c) h3]
    simp

/-- The accumulated data of a fully-consumed chunk sequence ends with the
CRLF terminator. -/
theorem consumesAll_suffix (chunks : List Str) (data : Str)
    (h : consumesAll chunks data = true) :
    crlf.isSuffixOf (data ++ chunks.flatten) = true := by
  induction chunks generalizing data with
  | nil =>
    rw [consumesAll] at h
    simpa using h
  | cons c cs ih =>
    rw [consumesAll] at h
    simp only [Bool.and_eq_true] at h
    have := ih (data ++ c) h.2
    simpa [List.append_assoc] using this

/-- With a non-empty line buffer, `_recv_line` pops the first buffered line
and performs no socket operation. -/
theorem recvLine_buffer (l : Str) (rest : List Str) (ch : List Str) :
    recvLine ⟨l :: rest, ch⟩ = .line l ⟨rest, ch⟩ := rfl

/-- With an empty line buffer, `_recv_line` accumulates socket data, splits
it on CRLF, buffers the tail pieces and returns the first. -/
theorem recvLine_empty_buffer (chunks : List Str) (data l : Str) (ls : List Str)
    (hok : recvData chunks [] = .ok data []) (hs : splitCRLF data = l :: ls) :
    recvLine ⟨[], chunks⟩ = .line l ⟨ls, []⟩ := by
  simp only [recvLine, hok, hs]

/-- Draining within the buffered lines pops them in order and never touches
the socket chunks. -/
theorem drainLines_buffer (n : Nat) (ls ch : List Str) (h : n ≤ ls.length) :
    drainLines n ⟨ls, ch⟩ = (ls.take n, ⟨ls.drop n, ch⟩) := by
  induction n generalizing ls with
  | zero => simp [drainLines]
  | succ n ih =>
    cases ls with
    | nil => simp at h
    | cons l rest =>
      rw [drainLines]
      simp only [recvLine_buffer]
      rw [ih rest (Nat.le_of_succ_le_succ h)]
      simp

/-- Counterexample to C4: the chunk `"a\r\nb\r\n"` holds exactly two
complete CRLF-terminated lines, yet after the two calls returning `"a"` and
`"b"` the line buffer still holds a surplus piece — the empty string left
by splitting data that ends with the terminator — and a third call returns
that extra empty line without reading the socket, so the reading operation
does not yield only the k complete lines. -/
theorem C4_counterexample_extra_empty_line :
    drainLines 2 ⟨[], ["a\r\nb\r\n".toList]⟩ =
      (["a".toList, "b".toList], ⟨[[]], []⟩) ∧
    recvLine ⟨[[]], []⟩ = .line [] ⟨[], []⟩ := by
  exact ⟨by decide, by decide⟩

/-- C4 (amended): for chunks fully consumed by one accumulation (no
intermediate accumulation ends with CRLF, no empty chunk, the full data
ends with CRLF), successive `_recv_line` calls yield all pieces of the
CRLF-split of the data in order — the k complete lines followed by one
extra empty line, the residue after the final terminator — with every call
after the first served from the buffer without reading the socket (the
chunk list is exhausted by the first call and the buffer is popped in
order). -/
theorem C4_recv_lines_trailing_empty :
    (∀ chunks : List Str, consumesAll chunks [] = true →
      ∃ body, splitCRLF chunks.flatten = body ++ [[]] ∧
        drainLines (body.length + 1) ⟨[], chunks⟩ = (body ++ [[]], ⟨[], []⟩)) ∧
    (∀ (n : Nat) (ls ch : List Str), n ≤ ls.length →
      drainLines n ⟨ls, ch⟩ = (ls.take n, ⟨ls.drop n, ch⟩)) := by
  refine ⟨?_, drainLines_buffer⟩
  intro chunks h
  have hok : recvData chunks [] = .ok chunks.flatten [] := by
    have h2 := recvData_consumesAll chunks [] h
    simpa using h2
  have hsuf : crlf.isSuffixOf chunks.flatten = true := by
    have h2 := consumesAll_suffix chunks [] h
    simpa using h2
  obtain ⟨pre, hpre⟩ := List.isSuffixOf_iff_suffix.mp hsuf
  have hsplit : splitCRLF chunks.flatten = splitCRLF pre ++ [[]] := by
    rw [← hpre, splitCRLF_append_crlf]
  refine ⟨splitCRLF pre, hsplit, ?_⟩
  cases hb : splitCRLF pre with
  | nil => exact absurd hb (splitCRLF_ne_nil pre)
  | cons b0 brest =>
    rw [hb] at hsplit
    rw [drainLines]
    rw [recvLine_empty_buffer chunks chunks.flatten b0 (brest ++ [[]]) hok
      (by rw [hsplit]; rfl)]
    dsimp only
    rw [drainLines_buffer (b0 :: brest).length (brest ++ [[]]) [] (by simp)]
    simp [List.take_of_length_le, List.drop_of_length_le]

/-- Witness for C4 (amended): three chunks that accumulate to
`hello\r\nworld\r\n` yield `hello`, `world`, and then the extra empty
line. -/
theorem C4_recv_lines_trailing_empty_witness :
    ∃ body, splitCRLF (["he".toList, "llo\r\nwor".toList,
        "ld\r\n".toList].flatten) = body ++ [[]] ∧
      drainLines (body.length + 1)
          ⟨[], ["he".toList, "llo\r\nwor".toList, "ld\r\n".toList]⟩ =
        (body ++ [[]], ⟨[], []⟩) :=
  C4_recv_lines_trailing_empty.1
    ["he".toList, "llo\r\nwor".toList, "ld\r\n".toList] (by decide)

/-- Handshake loop, PING case: reply on the wire and keep reading. -/
theorem handshakeLoop_ping (x : RecvState) (l : Str) (s2 : RecvState)
    (h : recvLine x = .line l s2) (hp : "PING".toList.isPrefixOf l = true) :
    handshakeLoop x =
      (sendLine [replaceFirst "PING".toList "PONG".toList l] ::
          (handshakeLoop s2).1,
        (handshakeLoop s2).2.1, (handshakeLoop s2).2.2) := by
  rw [handshakeLoop.eq_def]
  split
  · next l' s' heq =>
    rw [h] at heq
    cases heq
    rw [if_pos hp]
  · next heq => rw [h] at heq; cases heq
  · next heq => rw [h] at heq; cases heq

/-- Handshake loop: an unparsable line kills the worker before any event. -/
theorem handshakeLoop_parse_died (x : RecvState) (l : Str) (s2 : RecvState)
    (h : recvLine x = .line l s2) (hp : "PING".toList.isPrefixOf l = false)
    (hm : splitLine l = none) :
    handshakeLoop x = ([], [], .died) := by
  rw [handshakeLoop.eq_def]
  split
  · next l' s' heq =>
    rw [h] at heq
    cases heq
    rw [if_neg (by rw [hp]; simp)]
    simp only [hm]
  · rfl
  · next heq => rw [h] at heq; cases heq

/-- Handshake loop: the `001` numeric ends the handshake, emitting exactly
the `Connected` event and handing the remaining reader state to the two
background loops. -/
theorem handshakeLoop_001 (x : RecvState) (l : Str) (s2 : RecvState) (m : Message)
    (h : recvLine x = .line l s2) (hp : "PING".toList.isPrefixOf l = false)
    (hm : splitLine l = some m) (hc : m.command = "001".toList) :
    handshakeLoop x = ([], [.connected], .success s2) := by
  rw [handshakeLoop.eq_def]
  split
  · next l' s' heq =>
    rw [h] at heq
    cases heq
    rw [if_neg (by rw [hp]; simp)]
    simp only [hm]
    rw [if_pos hc]
  · next heq => rw [h] at heq; cases heq
  · next heq => rw [h] at heq; cases heq

/-- Handshake loop: any other parsed message is skipped. -/
theorem handshakeLoop_skip (x : RecvState) (l : Str) (s2 : RecvState) (m : Message)
    (h : recvLine x = .line l s2) (hp : "PING".toList.isPrefixOf l = false)
    (hm : splitLine l = some m) (hc : ¬ m.command = "001".toList) :
    handshakeLoop x = handshakeLoop s2 := by
  rw [handshakeLoop.eq_def]
  split
  · next l' s' heq =>
    rw [h] at heq
    cases heq
    rw [if_neg (by rw [hp]; simp)]
    simp only [hm]
    rw [if_neg hc]
  · next heq => rw [h] at heq; cases heq
  · next heq => rw [h] at heq; cases heq

/-- Handshake loop: the peer closing the stream kills the worker with no
event emitted. -/
theorem handshakeLoop_closed (x s2 : RecvState)
    (h : recvLine x = .closedError s2) :
    handshakeLoop x = ([], [], .died) := by
  rw [handshakeLoop.eq_def]
  split
  · next heq => rw [h] at heq; cases heq
  · rfl
  · next heq => rw [h] at heq; cases heq

/-- Handshake loop: the modelled input running out leaves the worker
blocked on the socket read. -/
theorem handshakeLoop_blocked (x : RecvState) (h : recvLine x = .blocked) :
    handshakeLoop x = ([], [], .blocked) := by
  rw [handshakeLoop.eq_def]
  split
  · next heq => rw [h] at heq; cases heq
  · next heq => rw [h] at heq; cases heq
  · rfl

/-- A dead handshake worker has emitted no public event: in particular no
`Connected`, and the background loops (started only on success) never
start. -/
theorem handshakeLoop_died_no_events (s : RecvState)
    (h : (handshakeLoop s).2.2 = .died) : (handshakeLoop s).2.1 = [] := by
  induction s using handshakeLoop.induct with
  | case1 x l s2 hl hp w es o hh ih =>
    rw [handshakeLoop_ping x l s2 hl hp] at h ⊢
    exact ih (by simpa using h)
  | case2 x l s2 hl hp hm =>
    rw [handshakeLoop_parse_died x l s2 hl (Bool.eq_false_iff.mpr hp) hm]
  | case3 x l s2 hl hp m hm hc =>
    rw [handshakeLoop_001 x l s2 m hl (Bool.eq_false_iff.mpr hp) hm hc] at h
    cases h
  | case4 x l s2 hl hp m hm hc ih =>
    rw [handshakeLoop_skip x l s2 m hl (Bool.eq_false_iff.mpr hp) hm hc] at h ⊢
    exact ih h
  | case5 x s2 hl => rw [handshakeLoop_closed x s2 hl]
  | case6 x hl =>
    rw [handshakeLoop_blocked x hl] at h
    simp at h

/-- Counterexample to C5: `connect` gives its caller the identical (empty)
result whether the peer closes the stream immediately (the worker dies with
no event) or completes the handshake (the worker emits `Connected`), so a
connection failure is not reported to the caller of `connect`, and `connect`
itself performs no handshake work before returning. -/
theorem C5_counterexample_silent_failure :
    connect [[]] = connect [":s 001 me :hi\r\n".toList] ∧
    handshakeLoop ⟨[], [[]]⟩ = ([], [], .died) ∧
    handshakeLoop ⟨[], [":s 001 me :hi\r\n".toList]⟩ =
      ([], [.connected], .success ⟨[[]], []⟩) := by
  refine ⟨rfl, ?_, ?_⟩
  · exact handshakeLoop_closed _ ⟨[], []⟩ (by decide)
  · exact handshakeLoop_001 _ ":s 001 me :hi".toList ⟨[[]], []⟩
      ⟨some (.server "s".toList), "001".toList, ["me".toList, "hi".toList]⟩
      (by decide) (by decide) (by decide) (by decide)

/-- C5 (amended): `connect` spawns the handshake onto a worker thread and
returns at once with a caller-visible result that carries no information
about the handshake (it is the same for every socket future); when the
handshake fails — for example the peer closes the stream before the `001`
numeric — the worker dies silently, the failure is not reported to the
caller, no `Connected` event is ever emitted and the background loops
(started only on handshake success) never start; the worker writes the
`NICK` and `USER` registration lines before reading. -/
theorem C5_connect_spawns_silent_worker :
    (∀ a b : List Str, connect a = connect b) ∧
    (∀ s : RecvState, (handshakeLoop s).2.2 = .died →
      (handshakeLoop s).2.1 = []) ∧
    (∀ s s2 : RecvState, recvLine s = .closedError s2 →
      handshakeLoop s = ([], [], .died)) ∧
    (∀ (nick : Str) (s : RecvState),
      connectWorker nick s =
        (sendLine ["NICK".toList, nick] ::
          sendLine ["USER".toList, nick, "0".toList, "*".toList, ':' :: nick] ::
          (handshakeLoop s).1,
         (handshakeLoop s).2.1, (handshakeLoop s).2.2)) := by
  refine ⟨fun a b => rfl, handshakeLoop_died_no_events, handshakeLoop_closed, ?_⟩
  intro nick s
  simp only [connectWorker]

/-- Witness for C5 (amended): the peer closing at once kills the worker,
which emits nothing. -/
theorem C5_connect_spawns_silent_worker_witness :
    handshakeLoop ⟨[], [[]]⟩ = ([], [], .died) ∧
    (handshakeLoop ⟨[], [[]]⟩).2.1 = [] := by
  have h3 := C5_connect_spawns_silent_worker.2.2.1 ⟨[], [[]]⟩ ⟨[], []⟩ (by decide)
  exact ⟨h3, C5_connect_spawns_silent_worker.2.1 ⟨[], [[]]⟩ (by rw [h3])⟩

/-- The accumulation loop of `_recv_line` fails with the connection-closed
error exactly when the socket yields an empty chunk (peer closed) before the
accumulated data ends with CRLF: the chunks consumed before the failure are
all non-empty and no accumulation point up to the failure — including the
starting data and the point just before the empty chunk — ends with the
terminator. -/
theorem recvData_closedError_iff (chunks : List Str) (data : Str)
    (rest : List Str) :
    recvData chunks data = .closedError rest ↔
      ∃ pre, chunks = pre ++ ([] : Str) :: rest ∧
        (∀ c ∈ pre, c ≠ ([] : Str)) ∧
        ∀ j, j ≤ pre.length →
          crlf.isSuffixOf (data ++ (pre.take j).flatten) = false := by
  induction chunks generalizing data with
  | nil =>
    constructor
    · intro h
      rw [recvData] at h
      by_cases hs : crlf.isSuffixOf data = true
      · rw [if_pos hs] at h; cases h
      · rw [if_neg hs] at h; cases h
    · rintro ⟨pre, h1, -, -⟩
      exact absurd h1.symm (by simp)
  | cons c cs ih =>
    rw [recvData]
    cases hs : crlf.isSuffixOf data with
    | true =>
      rw [if_pos rfl]
      constructor
      · intro h; cases h
      · rintro ⟨pre, h1, h2, h3⟩
        have h0 := h3 0 (Nat.zero_le _)
        simp [hs] at h0
    | false =>
      rw [if_neg (by simp)]
      by_cases hc : c = ([] : Str)
      · subst hc
        rw [if_pos rfl]
        constructor
        · intro h
          cases h
          refine ⟨[], rfl, by simp, fun j hj => ?_⟩
          rw [Nat.le_zero.mp hj]
          simpa using hs
        · rintro ⟨pre, h1, h2, h3⟩
          cases pre with
          | nil =>
            rw [List.nil_append] at h1
            injection h1 with _ htl
            rw [htl]
          | cons p ps =>
            rw [List.cons_append] at h1
            injection h1 with hp _
            exact absurd hp.symm (h2 p (List.mem_cons_self p ps))
      · rw [if_neg hc]
        rw [ih (data ++ c)]
        constructor
        · rintro ⟨pre', h1', h2', h3'⟩
          refine ⟨c :: pre', by rw [List.cons_append, h1'], ?_, ?_⟩
          · intro x hx
            rcases List.mem_cons.mp hx with hx1 | hx2
            · rw [hx1]; exact hc
            · exact h2' x hx2
          · intro j hj
            cases j with
            | zero => simpa using hs
            | succ j' =>
              rw [List.take_succ_cons, List.flatten_cons, ← List.append_assoc]
              exact h3' j' (Nat.le_of_succ_le_succ hj)
        · rintro ⟨pre, h1, h2, h3⟩
          cases pre with
          | nil =>
            rw [List.nil_append] at h1
            injection h1 with hp _
            exact absurd hp hc
          | cons p ps =>
            rw [List.cons_append] at h1
            injection h1 with hp htl
            refine ⟨ps, htl, fun x hx => h2 x (List.mem_cons_of_mem p hx), ?_⟩
            intro j hj
            have h4 := h3 (j + 1) (Nat.succ_le_succ hj)
            rw [List.take_succ_cons, List.flatten_cons,
              ← List.append_assoc] at h4
            rw [hp]
            exact h4

/-- The reader loop dies at once — no retry, no wire write, no enqueued
event — when `_recv_line` raises the connection-closed error. -/
theorem readerLoop_closed (x s2 : RecvState)
    (h : recvLine x = .closedError s2) :
    readerLoop x = ([], [], .died) := by
  rw [readerLoop.eq_def]
  split
  · next heq => rw [h] at heq; cases heq
  · rfl
  · next heq => rw [h] at heq; cases heq

/-- C8: `_recv_line` fails with the connection-closed error exactly when the
socket returns zero bytes while data is being accumulated and no
accumulation point has yet ended with CRLF; the error is not retried and
terminates the reader loop that observed it; and when the line buffer
already holds a line the call pops it without any socket operation and
cannot fail. -/
theorem C8_recv_closed_connection :
    (∀ (l : Str) (rest ch : List Str),
      recvLine ⟨l :: rest, ch⟩ = .line l ⟨rest, ch⟩) ∧
    (∀ (chunks : List Str) (data : Str) (rest : List Str),
      recvData chunks data = .closedError rest ↔
        ∃ pre, chunks = pre ++ ([] : Str) :: rest ∧
          (∀ c ∈ pre, c ≠ ([] : Str)) ∧
          ∀ j, j ≤ pre.length →
            crlf.isSuffixOf (data ++ (pre.take j).flatten) = false) ∧
    (∀ x s2 : RecvState, recvLine x = .closedError s2 →
      readerLoop x = ([], [], .died)) :=
  ⟨recvLine_buffer, recvData_closedError_iff, readerLoop_closed⟩

/-- Witness for C8: a buffered line is returned untouched even though the
socket would fail; a zero-byte chunk after `h` fails the accumulation; and
the reader loop observing the failure dies at once. -/
theorem C8_recv_closed_connection_witness :
    recvLine ⟨["a".toList], [[]]⟩ = .line "a".toList ⟨[], [[]]⟩ ∧
    recvData [['h'], []] [] = .closedError [] ∧
    readerLoop ⟨[], [['h'], []]⟩ = ([], [], .died) := by
  refine ⟨C8_recv_closed_connection.1 "a".toList [] [[]], ?_, ?_⟩
  · refine (C8_recv_closed_connection.2.1 [['h'], []] [] []).mpr
      ⟨[['h']], rfl, by simp, ?_⟩
    intro j hj
    match j, hj with
    | 0, _ => decide
    | 1, _ => decide
  · exact C8_recv_closed_connection.2.2 ⟨[], [['h'], []]⟩ ⟨[], []⟩ (by decide)
